import Mathlib

/- Verification of the portfolio dashboard pipeline
   (src/portfolio-dashboard-v11.py): the data-join and metric engine
   (enrich, filter, summarize) and the currency formatter.

   Modelling conventions.  Python/pandas float values are idealized as
   exact rationals.  The pipeline performs divisions by zero (per-holding
   profit with zero cost, weights with zero total market value) and
   lookups that miss (missing beta); in pandas these produce the IEEE
   special values NaN, +inf and -inf without raising, and Series.sum
   skips NaN entries.  The type EF records a value as a finite rational
   or one of the three special values, with IEEE propagation rules for
   the arithmetic the script performs. -/

/-- A pandas cell value: finite rational, NaN, or a signed infinity. -/
inductive EF where
  | nan : EF
  | inf : EF
  | ninf : EF
  | fin : ℚ → EF
deriving DecidableEq

namespace EF

/-- IEEE addition on EF values. -/
def add : EF → EF → EF
  | nan, _ => nan
  | _, nan => nan
  | inf, ninf => nan
  | ninf, inf => nan
  | inf, _ => inf
  | _, inf => inf
  | ninf, _ => ninf
  | _, ninf => ninf
  | fin a, fin b => fin (a + b)

/-- IEEE multiplication on EF values. -/
def mul : EF → EF → EF
  | nan, _ => nan
  | _, nan => nan
  | inf, inf => inf
  | inf, ninf => ninf
  | ninf, inf => ninf
  | ninf, ninf => inf
  | inf, fin b => if 0 < b then inf else if b < 0 then ninf else nan
  | fin a, inf => if 0 < a then inf else if a < 0 then ninf else nan
  | ninf, fin b => if 0 < b then ninf else if b < 0 then inf else nan
  | fin a, ninf => if 0 < a then ninf else if a < 0 then inf else nan
  | fin a, fin b => fin (a * b)

/-- IEEE division on EF values: x/0 is NaN for x = 0 and a signed
infinity otherwise, as in numpy float division. -/
def div : EF → EF → EF
  | nan, _ => nan
  | _, nan => nan
  | inf, inf => nan
  | inf, ninf => nan
  | ninf, inf => nan
  | ninf, ninf => nan
  | inf, fin b => if b < 0 then ninf else inf
  | ninf, fin b => if b < 0 then inf else ninf
  | fin _, inf => fin 0
  | fin _, ninf => fin 0
  | fin a, fin b =>
      if b = 0 then (if a = 0 then nan else if 0 < a then inf else ninf)
      else fin (a / b)

end EF

/-- Round a rational to the nearest integer, ties to even: the rounding
used by numpy/pandas round. -/
def roundHalfEven (q : ℚ) : ℤ :=
  let n := Int.floor q
  let frac := q - n
  if frac < 1/2 then n
  else if 1/2 < frac then n + 1
  else if n % 2 = 0 then n else n + 1

/-- Round a rational to 2 decimal places (half to even), as
Series.round(2) does. -/
def rnd2 (q : ℚ) : ℚ := (roundHalfEven (q * 100) : ℚ) / 100

/-- Series.round(2) on an EF cell: special values pass through. -/
def EF.round2 : EF → EF
  | EF.fin q => EF.fin (rnd2 q)
  | x => x

/-- pandas Series.sum with skipna=True: NaN entries are dropped, the
rest are added; an empty sum is 0. -/
def sumSkipNa : List EF → EF
  | [] => EF.fin 0
  | x :: rest =>
      match x with
      | EF.nan => sumSkipNa rest
      | y => EF.add y (sumSkipNa rest)

/-- The finite part of an EF cell, 0 for special values. -/
def finOr0 : EF → ℚ
  | EF.fin q => q
  | _ => 0

/- ---------------------------------------------------------------- -/
/- Data model: one CSV row and the three JSON reference tables.     -/
/- ---------------------------------------------------------------- -/

/-- One row of portfolio_data.csv. -/
structure Holding where
  isin : String
  stockName : String
  memberCode : String
  qty : ℚ
  valueAtCost : ℚ
  valueAtMarket : ℚ
  sectorName : Option String
deriving DecidableEq

/-- One entry of bank_master.json's banks_data list; an optional field
is `none` when the JSON key is absent. -/
structure BankEntry where
  isin : String
  full_name_en : Option String
  full_name_ta : Option String
deriving DecidableEq

/-- One entry of portfolio_master.json's portfolio_data list. -/
structure PortfolioEntry where
  member_code : String
  member_code_ta : Option String
  portfolio : Option String
  portfolio_ta : Option String
deriving DecidableEq

/-- One entry of bank_financial_metrics.json's financial_metrics list;
beta_1yr is `none` when the key is absent or null. -/
structure BetaEntry where
  isin : String
  beta_1yr : Option ℚ
deriving DecidableEq

/-- The three reference tables the script loads. -/
structure Refs where
  banks_data : List BankEntry
  portfolio_data : List PortfolioEntry
  financial_metrics : List BetaEntry

/-- The language radio button. -/
inductive Lang where
  | English : Lang
  | Tamil : Lang
deriving DecidableEq

/-- A Python dict comprehension keyed by `key` followed by dict.get:
later entries overwrite earlier ones, a missing key gives `none`. -/
def dictGet {α : Type} (key : α → String) (l : List α) : String → Option α :=
  l.foldl (fun m a => fun k => if k = key a then some a else m k) (fun _ => none)

/- ---------------------------------------------------------------- -/
/- Join & metric engine.                                            -/
/- ---------------------------------------------------------------- -/

/-- Column "Beta (1Y)": beta_map lookup by ISIN; a missing ISIN or a
null beta_1yr value becomes NaN in the column. -/
def beta_of (metrics : List BetaEntry) (h : Holding) : EF :=
  match dictGet BetaEntry.isin metrics h.isin with
  | none => EF.nan
  | some be =>
      match be.beta_1yr with
      | none => EF.nan
      | some b => EF.fin b

/-- Column "Display Name": bank_name_map.get(isin, \x7b\x7d).get(language,
stockName).  The per-language dict stores full_name_en (default "") for
English and bank.get("full_name_ta", that English value) for Tamil; the
Tamil fallback fires only when the full_name_ta KEY is absent. -/
def display_name (banks : List BankEntry) (lang : Lang) (h : Holding) : String :=
  match dictGet BankEntry.isin banks h.isin with
  | none => h.stockName
  | some b =>
      match lang with
      | Lang.English => b.full_name_en.getD ""
      | Lang.Tamil => b.full_name_ta.getD (b.full_name_en.getD "")

/-- Column "Member Display": portfolio_map.get(code, \x7b\x7d).get("member",
code).  A present entry stores item.get("member_code_ta", member_code)
for Tamil and member_code itself for English; an absent member code
falls back to the raw code. -/
def member_display (ps : List PortfolioEntry) (lang : Lang) (h : Holding) : String :=
  match dictGet PortfolioEntry.member_code ps h.memberCode with
  | none => h.memberCode
  | some p =>
      match lang with
      | Lang.English => p.member_code
      | Lang.Tamil => p.member_code_ta.getD p.member_code

/-- Column "Portfolio Name": portfolio_map.get(code, \x7b\x7d).get("portfolio",
""). -/
def portfolio_name (ps : List PortfolioEntry) (lang : Lang) (h : Holding) : String :=
  match dictGet PortfolioEntry.member_code ps h.memberCode with
  | none => ""
  | some p =>
      match lang with
      | Lang.English => p.portfolio.getD ""
      | Lang.Tamil => p.portfolio_ta.getD ""

/-- Column "Profit %": ((market - cost) / cost) * 100, then round(2).
With cost 0 this is inf, NaN or -inf depending on the sign of market. -/
def profit_pct_of (cost market : ℚ) : EF :=
  EF.round2 (EF.mul (EF.div (EF.fin (market - cost)) (EF.fin cost)) (EF.fin 100))

/-- A holding row together with the columns the script adds to df. -/
structure Enriched where
  holding : Holding
  beta : EF
  displayName : String
  memberDisplay : String
  portfolioName : String
  profitPct : EF
deriving DecidableEq

/-- Enrichment of one CSV row with the mapped columns. -/
def enrichOne (refs : Refs) (lang : Lang) (h : Holding) : Enriched :=
  { holding := h
    beta := beta_of refs.financial_metrics h
    displayName := display_name refs.banks_data lang h
    memberDisplay := member_display refs.portfolio_data lang h
    portfolioName := portfolio_name refs.portfolio_data lang h
    profitPct := profit_pct_of h.valueAtCost h.valueAtMarket }

/-- The whole enrichment pass over the loaded CSV (lines 52-81). -/
def enrich (hs : List Holding) (refs : Refs) (lang : Lang) : List Enriched :=
  hs.map (enrichOne refs lang)

/-- filtered_df = df[df["Display Name"].isin(selected_stocks)]. -/
def filterSel (l : List Enriched) (sel : List String) : List Enriched :=
  l.filter (fun e => sel.contains e.displayName)

/-- total_cost = filtered_df["Value At Cost"].sum(). -/
def total_cost (l : List Enriched) : ℚ :=
  (l.map (fun e => e.holding.valueAtCost)).sum

/-- total_market = filtered_df["Value At Market Price"].sum(). -/
def total_market (l : List Enriched) : ℚ :=
  (l.map (fun e => e.holding.valueAtMarket)).sum

/-- profit_pct = ((total_market - total_cost) / total_cost) * 100 if
total_cost else 0. -/
def profit_pct (l : List Enriched) : ℚ :=
  if total_cost l = 0 then 0
  else (total_market l - total_cost l) / total_cost l * 100

/-- Column "Weight": marketValue / total_market, as float division. -/
def weight_of (l : List Enriched) (e : Enriched) : EF :=
  EF.div (EF.fin e.holding.valueAtMarket) (EF.fin (total_market l))

/-- The Weight column of filtered_df. -/
def weights (l : List Enriched) : List EF :=
  l.map (weight_of l)

/-- Column "Weighted Beta": Beta (1Y) * Weight. -/
def weighted_betas (l : List Enriched) : List EF :=
  l.map (fun e => EF.mul e.beta (weight_of l e))

/-- portfolio_beta = filtered_df["Weighted Beta"].sum(). -/
def portfolio_beta (l : List Enriched) : EF :=
  sumSkipNa (weighted_betas l)

/-- The four summary metrics of lines 89-94. -/
structure Summary where
  totalCost : ℚ
  totalMarket : ℚ
  profitPct : ℚ
  portfolioBeta : EF
deriving DecidableEq

/-- summarize packages the summary metrics of the filtered frame. -/
def summarize (l : List Enriched) : Summary :=
  { totalCost := total_cost l
    totalMarket := total_market l
    profitPct := profit_pct l
    portfolioBeta := portfolio_beta l }

/- ---------------------------------------------------------------- -/
/- Currency formatting (format_inr).                                -/
/- ---------------------------------------------------------------- -/

/-- Insert a comma after every third digit of a reversed digit list:
the grouping of the Python format spec ",.0f" used in the except
branch of format_inr. -/
def rev3 : List Char → List Char
  | a :: b :: c :: d :: rest => a :: b :: c :: ',' :: rev3 (d :: rest)
  | l => l

/-- Groups of two digits on a reversed digit list, for the regional
style after its initial group of three. -/
def rev2 : List Char → List Char
  | a :: b :: c :: rest => a :: b :: ',' :: rev2 (c :: rest)
  | l => l

/-- Indian grouping on a reversed digit list: one group of three, then
groups of two. -/
def indianRev (s : List Char) : List Char :=
  match s with
  | a :: b :: c :: d :: rest => a :: b :: c :: ',' :: rev2 (d :: rest)
  | l => l

/-- The except branch of format_inr on a whole-unit amount: the ₹ glyph
followed by the Python ",.0f" rendering, which groups digits in threes
(Western style).  The script always calls format_inr on round(x), so
the amount is integral. -/
def format_inr_fallback (v : ℤ) : String :=
  "₹" ++ (if v < 0 then "-" else "") ++
    String.mk (rev3 (Nat.toDigits 10 v.natAbs).reverse).reverse

/-- Modelled from the spec: the regional grouped rendering formatCurrency
is required to produce ("groups of two digits after the initial group of
three" with a ₹ prefix).  Stated from the spec's words, for comparison
with format_inr_fallback. -/
def specIndianCurrency (v : ℤ) : String :=
  "₹" ++ (if v < 0 then "-" else "") ++
    String.mk (indianRev (Nat.toDigits 10 v.natAbs).reverse).reverse

/-- Modelled from the spec: the weighted average of the already-rounded
per-holding profit percentages, the aggregation the spec says the
portfolio-level profit percentage is NOT computed by.  Stated from the
spec's words, for comparison with profit_pct. -/
def specWeightedAvgRounded (l : List Enriched) : ℚ :=
  (l.map (fun e => e.holding.valueAtMarket / total_market l * finOr0 e.profitPct)).sum

/- ---------------------------------------------------------------- -/
/- Concrete inputs used by witnesses and counterexamples.           -/
/- ---------------------------------------------------------------- -/

/-- Empty reference tables. -/
def refs0 : Refs := ⟨[], [], []⟩

/-- A holding bought at 1000 and now worth 1200. -/
def c1h : Holding := ⟨"I1", "S1", "M1", 1, 1000, 1200, none⟩

/-- Holding with market value 60 whose ISIN has beta 1.2. -/
def c2h1 : Holding := ⟨"ISA", "A", "M", 1, 50, 60, none⟩

/-- Holding with market value 40 whose ISIN has no beta entry. -/
def c2h2 : Holding := ⟨"ISB", "B", "M", 1, 30, 40, none⟩

/-- Beta table holding only ISA with beta 1.2. -/
def c2refs : Refs := ⟨[], [], [⟨"ISA", some (6/5)⟩]⟩

/-- The filtered enriched frame for the beta example. -/
def c2list : List Enriched :=
  filterSel (enrich [c2h1, c2h2] c2refs Lang.English) ["A", "B"]

/-- A holding whose market value is zero. -/
def c3h : Holding := ⟨"I3", "Z", "M", 1, 10, 0, none⟩

/-- A one-row filtered frame with total market value zero. -/
def c3list : List Enriched := filterSel (enrich [c3h] refs0 Lang.English) ["Z"]

/-- Two-row frame with market values 60 and 40. -/
def c3wl : List Enriched := enrich [c2h1, c2h2] refs0 Lang.English

/-- Holding with zero market value and a beta entry. -/
def c3z : Holding := ⟨"ISA", "Z0", "M", 1, 5, 0, none⟩

/-- One-row frame whose only market value is zero, with a beta present. -/
def c3zl : List Enriched := enrich [c3z] c2refs Lang.English

/-- Holding with cost 3 and market 4 (profit 33.33 after rounding). -/
def c4p : Holding := ⟨"IP", "P", "M", 1, 3, 4, none⟩

/-- Holding with cost 3 and market 2 (profit -33.33 after rounding). -/
def c4q : Holding := ⟨"IQ", "Q", "M", 1, 3, 2, none⟩

/-- Frame on which the exact and the rounded-weighted-average portfolio
profit percentages differ. -/
def c4list : List Enriched := enrich [c4p, c4q] refs0 Lang.English

/-- Issuer entry whose Tamil name key is present but the empty string. -/
def c5bank : BankEntry := ⟨"B1", some "Alpha Bank", some ""⟩

/-- Holding matching c5bank. -/
def c5h : Holding := ⟨"B1", "RAW", "M", 1, 1, 1, none⟩

/-- Issuer entry whose Tamil name key is absent. -/
def c5bank2 : BankEntry := ⟨"B2", some "Beta Bank", none⟩

/-- Holding matching c5bank2. -/
def c5h2 : Holding := ⟨"B2", "RAW2", "M", 1, 1, 1, none⟩

/-- Holding whose member code appears in no portfolio master entry. -/
def c9h : Holding := ⟨"I9", "S9", "M1", 1, 1, 1, none⟩

/-- Two holdings sharing the display name "SameName". -/
def c10a : Holding := ⟨"IA", "SameName", "MX", 1, 1, 2, none⟩

/-- Second holding with the same stock name as c10a. -/
def c10b : Holding := ⟨"IB", "SameName", "MY", 1, 1, 3, none⟩

/-- The enriched frame holding c10a and c10b. -/
def c10l : List Enriched := enrich [c10a, c10b] refs0 Lang.English

/-- Enrichment of c10a. -/
def c10e1 : Enriched := enrichOne refs0 Lang.English c10a

/-- Enrichment of c10b. -/
def c10e2 : Enriched := enrichOne refs0 Lang.English c10b

/- ---------------------------------------------------------------- -/
/- Helper lemmas.                                                   -/
/- ---------------------------------------------------------------- -/

/-- Evaluation of roundHalfEven when the fractional part is below a
half. -/
theorem roundHalfEven_lo (q : ℚ) (n : ℤ) (h1 : (n : ℚ) ≤ q) (h2 : q < n + 1/2) :
    roundHalfEven q = n := by
  have hf : Int.floor q = n := Int.floor_eq_iff.mpr ⟨h1, by linarith⟩
  simp only [roundHalfEven, hf]
  rw [if_pos (by linarith)]

/-- Evaluation of roundHalfEven when the fractional part is above a
half. -/
theorem roundHalfEven_hi (q : ℚ) (n : ℤ) (h1 : (n : ℚ) + 1/2 < q) (h2 : q < n + 1) :
    roundHalfEven q = n + 1 := by
  have hf : Int.floor q = n := Int.floor_eq_iff.mpr ⟨by linarith, by linarith⟩
  simp only [roundHalfEven, hf]
  rw [if_neg (by linarith), if_pos (by linarith)]

/-- rnd2 is the identity on integer-valued rationals. -/
theorem rnd2_intCast (n : ℤ) : rnd2 (n : ℚ) = n := by
  have h : roundHalfEven ((n : ℚ) * 100) = n * 100 := by
    apply roundHalfEven_lo ((n : ℚ) * 100) (n * 100) (by push_cast; linarith) ?_
    push_cast
    linarith
  rw [rnd2, h]
  push_cast
  ring

/-- Multiplying an EF NaN on the left absorbs. -/
theorem EF.nan_mul (x : EF) : EF.mul EF.nan x = EF.nan := by
  cases x <;> rfl

/-- Multiplying an EF NaN on the right absorbs. -/
theorem EF.mul_nan (x : EF) : EF.mul x EF.nan = EF.nan := by
  cases x <;> rfl

/-- Per-holding profit percentage at nonzero cost: the rounded exact
formula. -/
theorem profit_pct_of_pos (cost market : ℚ) (h : cost ≠ 0) :
    profit_pct_of cost market = EF.fin (rnd2 ((market - cost) / cost * 100)) := by
  simp [profit_pct_of, EF.div, EF.mul, EF.round2, h]

/-- The Weight column cell at nonzero total market value. -/
theorem weight_of_eq (l : List Enriched) (e : Enriched) (h : total_market l ≠ 0) :
    weight_of l e = EF.fin (e.holding.valueAtMarket / total_market l) := by
  simp [weight_of, EF.div, h]

/-- sumSkipNa on a list of NaN-or-finite cells is the sum of the finite
parts. -/
theorem sumSkipNa_eq_fin_sum (l : List EF)
    (h : ∀ x ∈ l, x = EF.nan ∨ ∃ q, x = EF.fin q) :
    sumSkipNa l = EF.fin ((l.map finOr0).sum) := by
  induction l with
  | nil => rfl
  | cons x rest ih =>
    have hrest := ih (fun y hy => h y (List.mem_cons_of_mem _ hy))
    rcases h x (List.mem_cons_self x rest) with hx | ⟨q, hx⟩
    · subst hx
      simpa [sumSkipNa, finOr0] using hrest
    · subst hx
      simp [sumSkipNa, hrest, finOr0, EF.add]

/-- sumSkipNa on a list of NaN cells is zero. -/
theorem sumSkipNa_all_nan (l : List EF) (h : ∀ x ∈ l, x = EF.nan) :
    sumSkipNa l = EF.fin 0 := by
  induction l with
  | nil => rfl
  | cons x rest ih =>
    have hx := h x (List.mem_cons_self x rest)
    subst hx
    simpa [sumSkipNa] using ih (fun y hy => h y (List.mem_cons_of_mem _ hy))

/-- The shape of the Beta (1Y) column: NaN or a finite value, never an
infinity. -/
theorem beta_of_shape (metrics : List BetaEntry) (h : Holding) :
    beta_of metrics h = EF.nan ∨ ∃ b, beta_of metrics h = EF.fin b := by
  unfold beta_of
  cases hm : dictGet BetaEntry.isin metrics h.isin with
  | none => exact Or.inl rfl
  | some be =>
    cases hb : be.beta_1yr with
    | none => exact Or.inl (by simp [hb])
    | some b => exact Or.inr ⟨b, by simp [hb]⟩

/-- Every row of an enriched frame carries a NaN-or-finite beta. -/
theorem enrich_beta_shape (hs : List Holding) (refs : Refs) (lang : Lang)
    (e : Enriched) (he : e ∈ enrich hs refs lang) :
    e.beta = EF.nan ∨ ∃ b, e.beta = EF.fin b := by
  obtain ⟨h0, _, rfl⟩ := List.mem_map.mp he
  exact beta_of_shape refs.financial_metrics h0

/-- Weighted-beta sum as the finite formula, for frames whose betas are
NaN-or-finite and whose total market value is nonzero. -/
theorem portfolio_beta_formula (l : List Enriched)
    (hb : ∀ e ∈ l, e.beta = EF.nan ∨ ∃ b, e.beta = EF.fin b)
    (h : total_market l ≠ 0) :
    portfolio_beta l = EF.fin ((l.map (fun e =>
      finOr0 e.beta * (e.holding.valueAtMarket / total_market l))).sum) := by
  have hshape : ∀ x ∈ weighted_betas l, x = EF.nan ∨ ∃ q, x = EF.fin q := by
    intro x hx
    obtain ⟨e, he, rfl⟩ := List.mem_map.mp hx
    rcases hb e he with hbe | ⟨b, hbe⟩
    · rw [hbe, EF.nan_mul]
      exact Or.inl rfl
    · rw [hbe, weight_of_eq l e h]
      exact Or.inr ⟨_, rfl⟩
  rw [portfolio_beta, sumSkipNa_eq_fin_sum _ hshape, weighted_betas, List.map_map]
  refine congrArg EF.fin (congrArg List.sum (List.map_congr_left ?_))
  intro e he
  rcases hb e he with hbe | ⟨b, hbe⟩
  · simp [hbe, EF.nan_mul, finOr0]
  · rw [Function.comp_apply, hbe, weight_of_eq l e h]
    simp [EF.mul, finOr0]

/- ---------------------------------------------------------------- -/
/- Claims.                                                          -/
/- ---------------------------------------------------------------- -/

/-- C1: for every enriched holding with cost value > 0, the per-holding
profit percentage equals round((market - cost) / cost * 100, 2), the
rounding to 2 decimals being applied at the per-holding stage. -/
theorem C1_per_holding_profit (hs : List Holding) (refs : Refs) (lang : Lang)
    (e : Enriched) (he : e ∈ enrich hs refs lang)
    (hc : 0 < e.holding.valueAtCost) :
    e.profitPct = EF.fin (rnd2 ((e.holding.valueAtMarket - e.holding.valueAtCost) /
      e.holding.valueAtCost * 100)) := by
  obtain ⟨h0, _, rfl⟩ := List.mem_map.mp he
  exact profit_pct_of_pos _ _ (ne_of_gt hc)

/-- C1 witness: cost 1000 and market 1200 give profit percentage 20. -/
theorem C1_witness :
    0 < (enrichOne refs0 Lang.English c1h).holding.valueAtCost ∧
    (enrichOne refs0 Lang.English c1h).profitPct = EF.fin 20 := by
  have hc : 0 < (enrichOne refs0 Lang.English c1h).holding.valueAtCost := by
    norm_num [enrichOne, c1h]
  refine ⟨hc, ?_⟩
  have h := C1_per_holding_profit [c1h] refs0 Lang.English
    (enrichOne refs0 Lang.English c1h)
    (List.mem_map.mpr ⟨c1h, List.mem_cons_self _ _, rfl⟩) hc
  rw [h]
  have h1 : ((enrichOne refs0 Lang.English c1h).holding.valueAtMarket -
      (enrichOne refs0 Lang.English c1h).holding.valueAtCost) /
      (enrichOne refs0 Lang.English c1h).holding.valueAtCost * 100 = (20 : ℚ) := by
    norm_num [enrichOne, c1h]
  have h2 : rnd2 (20 : ℚ) = 20 := by
    have h3 := rnd2_intCast 20
    push_cast at h3
    exact h3
  rw [h1, h2]

/-- C6: an empty display-name selection filters to the empty frame, and
its summary has total cost 0, total market 0, profit percentage 0 and
portfolio beta 0. -/
theorem C6_empty_selection (l : List Enriched) :
    filterSel l [] = []
    ∧ (summarize (filterSel l [])).totalCost = 0
    ∧ (summarize (filterSel l [])).totalMarket = 0
    ∧ (summarize (filterSel l [])).profitPct = 0
    ∧ (summarize (filterSel l [])).portfolioBeta = EF.fin 0 := by
  have hf : filterSel l [] = [] := by
    simp [filterSel]
  rw [hf]
  refine ⟨rfl, rfl, rfl, ?_, rfl⟩
  simp [summarize, profit_pct, total_cost]

/-- C7 counterexample: at zero cost the profit cell is +inf when the
market value is 100 but NaN when it is 0, so the sentinel is not the
same for every zero-cost holding. -/
theorem C7_counterexample :
    profit_pct_of 0 100 = EF.inf ∧ profit_pct_of 0 0 = EF.nan
    ∧ EF.inf ≠ EF.nan := by
  refine ⟨?_, ?_, by simp⟩
  · norm_num [profit_pct_of, EF.div, EF.mul, EF.round2]
  · norm_num [profit_pct_of, EF.div, EF.mul, EF.round2]

/-- C7 (amended): the zero-cost profit computation never raises, and
returns +inf for positive market value, -inf for negative and NaN for
zero, rather than one consistent sentinel. -/
theorem C7_zero_cost_sentinels (m : ℚ) :
    profit_pct_of 0 m =
      if 0 < m then EF.inf else if m < 0 then EF.ninf else EF.nan := by
  rcases lt_trichotomy 0 m with h | h | h
  · norm_num [profit_pct_of, EF.div, EF.mul, EF.round2, h, h.ne']
  · rw [← h]
    norm_num [profit_pct_of, EF.div, EF.mul, EF.round2]
  · norm_num [profit_pct_of, EF.div, EF.mul, EF.round2, h, h.ne, asymm h]

/-- C8 counterexample: the fallback branch of format_inr renders 1234567
as ₹1,234,567 (groups of three), not the regional ₹12,34,567. -/
theorem C8_counterexample :
    format_inr_fallback 1234567 = "₹1,234,567"
    ∧ specIndianCurrency 1234567 = "₹12,34,567"
    ∧ format_inr_fallback 1234567 ≠ specIndianCurrency 1234567 := by
  exact ⟨rfl, rfl, by decide⟩

/-- C8 (amended): the fallback formatter is total, renders 0 as ₹0 and
1234567 as ₹1,234,567 with Western three-digit grouping, which differs
from the regional grouping the spec requires. -/
theorem C8_fallback_grouping :
    format_inr_fallback 0 = "₹0"
    ∧ format_inr_fallback 1234567 = "₹1,234,567"
    ∧ format_inr_fallback 1234567 ≠ specIndianCurrency 1234567 := by
  exact ⟨rfl, rfl, by decide⟩

/-- C9 counterexample: with an empty portfolio master the member display
falls back to the raw member code "M1", not to the empty string. -/
theorem C9_counterexample :
    dictGet PortfolioEntry.member_code [] c9h.memberCode = none
    ∧ member_display [] Lang.English c9h = "M1"
    ∧ ("M1" : String) ≠ "" := by
  exact ⟨rfl, rfl, by decide⟩

/-- C9 (amended): for a member code absent from the portfolio master,
the member display string falls back to the raw member code and the
portfolio name string to the empty string. -/
theorem C9_absent_member_code (ps : List PortfolioEntry) (lang : Lang) (h : Holding)
    (hn : dictGet PortfolioEntry.member_code ps h.memberCode = none) :
    member_display ps lang h = h.memberCode ∧ portfolio_name ps lang h = "" := by
  constructor
  · simp [member_display, hn]
  · simp [portfolio_name, hn]

/-- C9 witness: the amended fallbacks at the concrete holding c9h. -/
theorem C9_witness :
    dictGet PortfolioEntry.member_code [] c9h.memberCode = none
    ∧ member_display [] Lang.Tamil c9h = c9h.memberCode
    ∧ portfolio_name [] Lang.Tamil c9h = "" := by
  exact ⟨rfl, (C9_absent_member_code [] Lang.Tamil c9h rfl).1,
    (C9_absent_member_code [] Lang.Tamil c9h rfl).2⟩

/-- C10: two enriched holdings with the same display name are kept or
dropped together by every display-name selection. -/
theorem C10_same_display_name (l : List Enriched) (sel : List String)
    (e1 e2 : Enriched) (h1 : e1 ∈ l) (h2 : e2 ∈ l)
    (hd : e1.displayName = e2.displayName) :
    e1 ∈ filterSel l sel ↔ e2 ∈ filterSel l sel := by
  simp only [filterSel, List.mem_filter]
  rw [hd]
  exact ⟨fun x => ⟨h2, x.2⟩, fun x => ⟨h1, x.2⟩⟩

/-- C10 witness: two holdings of the same security under different
member codes are selected together. -/
theorem C10_witness :
    c10e1 ∈ c10l ∧ c10e2 ∈ c10l ∧ c10e1.displayName = c10e2.displayName
    ∧ (c10e1 ∈ filterSel c10l ["SameName"] ↔ c10e2 ∈ filterSel c10l ["SameName"]) := by
  have hl : c10l = [c10e1, c10e2] := rfl
  have h1 : c10e1 ∈ c10l := by
    rw [hl]
    exact List.mem_cons_self _ _
  have h2 : c10e2 ∈ c10l := by
    rw [hl]
    exact List.mem_cons_of_mem _ (List.mem_cons_self _ _)
  exact ⟨h1, h2, rfl, C10_same_display_name c10l ["SameName"] c10e1 c10e2 h1 h2 rfl⟩

/-- C2: on any filtered enriched frame with nonzero total market value,
the portfolio beta is the sum over its holdings of beta times weight,
with a missing (null) beta contributing 0. -/
theorem C2_portfolio_beta (hs : List Holding) (refs : Refs) (lang : Lang)
    (sel : List String)
    (h : total_market (filterSel (enrich hs refs lang) sel) ≠ 0) :
    portfolio_beta (filterSel (enrich hs refs lang) sel) =
      EF.fin (((filterSel (enrich hs refs lang) sel).map (fun e =>
        finOr0 e.beta * (e.holding.valueAtMarket /
          total_market (filterSel (enrich hs refs lang) sel)))).sum) := by
  refine portfolio_beta_formula _ ?_ h
  intro e he
  exact enrich_beta_shape hs refs lang e (List.mem_of_mem_filter he)

/-- C2 witness: weights 0.6 and 0.4 with betas 1.2 and missing give
portfolio beta 0.72. -/
theorem C2_witness :
    total_market c2list ≠ 0 ∧ portfolio_beta c2list = EF.fin (18/25) := by
  have hl : c2list = [enrichOne c2refs Lang.English c2h1,
      enrichOne c2refs Lang.English c2h2] := rfl
  have hm1 : (enrichOne c2refs Lang.English c2h1).holding.valueAtMarket = 60 := rfl
  have hm2 : (enrichOne c2refs Lang.English c2h2).holding.valueAtMarket = 40 := rfl
  have hb1 : (enrichOne c2refs Lang.English c2h1).beta = EF.fin (6/5) := rfl
  have hb2 : (enrichOne c2refs Lang.English c2h2).beta = EF.nan := rfl
  have htm : total_market c2list = 100 := by
    rw [hl]
    norm_num [total_market, hm1, hm2]
  have hne : total_market c2list ≠ 0 := by
    rw [htm]
    norm_num
  refine ⟨hne, ?_⟩
  have h2 : portfolio_beta c2list = EF.fin ((c2list.map (fun e =>
      finOr0 e.beta * (e.holding.valueAtMarket / total_market c2list))).sum) :=
    C2_portfolio_beta [c2h1, c2h2] c2refs Lang.English ["A", "B"] hne
  rw [h2, htm, hl]
  simp only [List.map_cons, List.map_nil, List.sum_cons, List.sum_nil,
    hm1, hm2, hb1, hb2, finOr0]
  norm_num [EF.fin.injEq]

/-- C3 counterexample: a nonempty filtered frame with total market value
0 whose only weight is NaN, not 0. -/
theorem C3_counterexample :
    total_market c3list = 0 ∧ weights c3list = [EF.nan]
    ∧ EF.nan ≠ EF.fin 0 := by
  have hl : c3list = [enrichOne refs0 Lang.English c3h] := rfl
  have hm : (enrichOne refs0 Lang.English c3h).holding.valueAtMarket = 0 := rfl
  have htm : total_market c3list = 0 := by
    rw [hl]
    simp [total_market, hm]
  refine ⟨htm, ?_, by simp⟩
  rw [weights, hl]
  simp [weight_of, EF.div, total_market, hm]

/-- C3 (amended): weights are marketValue / totalMarket and sum to
exactly 1 when the total market value is positive; when every market
value is 0 (total 0) each weight is NaN rather than 0, while the
portfolio beta still evaluates to 0 and nothing raises. -/
theorem C3_weights (l : List Enriched) :
    (total_market l ≠ 0 →
      weights l = l.map (fun e => EF.fin (e.holding.valueAtMarket / total_market l)))
    ∧ (0 < total_market l → sumSkipNa (weights l) = EF.fin 1)
    ∧ ((∀ e ∈ l, e.holding.valueAtMarket = 0) →
      (∀ e ∈ l, weight_of l e = EF.nan) ∧ portfolio_beta l = EF.fin 0) := by
  refine ⟨?_, ?_, ?_⟩
  · intro h
    exact List.map_congr_left (fun e _ => weight_of_eq l e h)
  · intro h
    have hne := ne_of_gt h
    have hw : weights l =
        l.map (fun e => EF.fin (e.holding.valueAtMarket / total_market l)) :=
      List.map_congr_left (fun e _ => weight_of_eq l e hne)
    have hshape : ∀ x ∈ l.map (fun e =>
        EF.fin (e.holding.valueAtMarket / total_market l)),
        x = EF.nan ∨ ∃ q, x = EF.fin q := by
      intro x hx
      obtain ⟨e, _, rfl⟩ := List.mem_map.mp hx
      exact Or.inr ⟨_, rfl⟩
    rw [hw, sumSkipNa_eq_fin_sum _ hshape, List.map_map]
    have hcomp : (finOr0 ∘ fun e => EF.fin (e.holding.valueAtMarket / total_market l)) =
        fun e : Enriched => e.holding.valueAtMarket * (total_market l)⁻¹ := by
      funext e
      simp [finOr0, div_eq_mul_inv]
    rw [hcomp, List.sum_map_mul_right, ← total_market, mul_inv_cancel₀ hne]
  · intro h
    have htm : total_market l = 0 := by
      rw [total_market]
      apply List.sum_eq_zero
      intro x hx
      obtain ⟨e, he, rfl⟩ := List.mem_map.mp hx
      exact h e he
    have hwn : ∀ e ∈ l, weight_of l e = EF.nan := by
      intro e he
      rw [weight_of, htm, h e he]
      simp [EF.div]
    refine ⟨hwn, ?_⟩
    rw [portfolio_beta]
    apply sumSkipNa_all_nan
    intro x hx
    obtain ⟨e, he, rfl⟩ := List.mem_map.mp hx
    rw [hwn e he, EF.mul_nan]

/-- C3 witness: a positive-total frame whose weights sum to 1, and an
all-zero-market frame whose portfolio beta is 0. -/
theorem C3_witness :
    (0 < total_market c3wl ∧ sumSkipNa (weights c3wl) = EF.fin 1)
    ∧ ((c3zl.all fun e => e.holding.valueAtMarket == 0) = true
        ∧ portfolio_beta c3zl = EF.fin 0) := by
  have hl : c3wl = [enrichOne refs0 Lang.English c2h1,
      enrichOne refs0 Lang.English c2h2] := rfl
  have hm1 : (enrichOne refs0 Lang.English c2h1).holding.valueAtMarket = 60 := rfl
  have hm2 : (enrichOne refs0 Lang.English c2h2).holding.valueAtMarket = 40 := rfl
  have htm : 0 < total_market c3wl := by
    rw [hl]
    norm_num [total_market, hm1, hm2]
  have hzl : c3zl = [enrichOne c2refs Lang.English c3z] := rfl
  have hzm : (enrichOne c2refs Lang.English c3z).holding.valueAtMarket = 0 := rfl
  have hz : ∀ e ∈ c3zl, e.holding.valueAtMarket = 0 := by
    intro e he
    rw [hzl] at he
    obtain rfl := List.mem_singleton.mp he
    exact hzm
  refine ⟨⟨htm, (C3_weights c3wl).2.1 htm⟩, ?_, ((C3_weights c3zl).2.2 hz).2⟩
  rw [hzl]
  simp [List.all_cons, hzm]

/-- C4: the portfolio profit percentage is computed from the unrounded
totals of the filtered frame (0 when total cost is 0), and on c4list it
differs from the weighted average of the rounded per-holding
percentages. -/
theorem C4_portfolio_profit :
    (∀ l : List Enriched, (summarize l).profitPct =
      if total_cost l = 0 then 0
      else (total_market l - total_cost l) / total_cost l * 100)
    ∧ (summarize c4list).profitPct ≠ specWeightedAvgRounded c4list := by
  constructor
  · intro l
    rfl
  · have hl : c4list = [enrichOne refs0 Lang.English c4p,
        enrichOne refs0 Lang.English c4q] := rfl
    have hc1 : (enrichOne refs0 Lang.English c4p).holding.valueAtCost = 3 := rfl
    have hc2 : (enrichOne refs0 Lang.English c4q).holding.valueAtCost = 3 := rfl
    have hm1 : (enrichOne refs0 Lang.English c4p).holding.valueAtMarket = 4 := rfl
    have hm2 : (enrichOne refs0 Lang.English c4q).holding.valueAtMarket = 2 := rfl
    have htc : total_cost c4list = 6 := by
      rw [hl]
      norm_num [total_cost, hc1, hc2]
    have htm : total_market c4list = 6 := by
      rw [hl]
      norm_num [total_market, hm1, hm2]
    have hpp : (summarize c4list).profitPct = 0 := by
      show profit_pct c4list = 0
      rw [profit_pct, if_neg (by rw [htc]; norm_num), htc, htm]
      norm_num
    have hp1 : (enrichOne refs0 Lang.English c4p).profitPct = EF.fin (3333/100) := by
      show profit_pct_of (3 : ℚ) 4 = EF.fin (3333/100)
      rw [profit_pct_of_pos 3 4 (by norm_num)]
      have hr : roundHalfEven ((((4 : ℚ) - 3) / 3 * 100) * 100) = 3333 := by
        apply roundHalfEven_lo
        · push_cast
          norm_num
        · push_cast
          norm_num
      rw [rnd2, hr]
      norm_num [EF.fin.injEq]
    have hp2 : (enrichOne refs0 Lang.English c4q).profitPct = EF.fin (-(3333/100)) := by
      show profit_pct_of (3 : ℚ) 2 = EF.fin (-(3333/100))
      rw [profit_pct_of_pos 3 2 (by norm_num)]
      have hr : roundHalfEven ((((2 : ℚ) - 3) / 3 * 100) * 100) = -3334 + 1 := by
        apply roundHalfEven_hi
        · push_cast
          norm_num
        · push_cast
          norm_num
      rw [rnd2, hr]
      norm_num [EF.fin.injEq]
    have htm2 : total_market [enrichOne refs0 Lang.English c4p,
        enrichOne refs0 Lang.English c4q] = 6 := hl ▸ htm
    have havg : specWeightedAvgRounded c4list = 1111/100 := by
      simp only [specWeightedAvgRounded, htm, hl]
      simp only [List.map_cons, List.map_nil, List.sum_cons, List.sum_nil,
        hm1, hm2, hp1, hp2, finOr0, htm2]
      norm_num
    rw [hpp, havg]
    norm_num

/-- C5 counterexample: an issuer entry whose Tamil name key is present
as the empty string is displayed as "", not as its English name. -/
theorem C5_counterexample :
    dictGet BankEntry.isin [c5bank] c5h.isin = some c5bank
    ∧ c5bank.full_name_ta = some ""
    ∧ c5bank.full_name_en = some "Alpha Bank"
    ∧ display_name [c5bank] Lang.Tamil c5h = ""
    ∧ ("" : String) ≠ "Alpha Bank" := by
  exact ⟨rfl, rfl, rfl, rfl, by decide⟩

/-- C5 (amended): the display name falls back to the raw stock name when
the ISIN is absent from the issuer table; under Tamil it falls back to
the English name exactly when the Tamil name key is absent, while a
Tamil name present as the empty string is used as is. -/
theorem C5_display_name_fallbacks (banks : List BankEntry) (lang : Lang) (h : Holding) :
    (dictGet BankEntry.isin banks h.isin = none →
      display_name banks lang h = h.stockName)
    ∧ (∀ b, dictGet BankEntry.isin banks h.isin = some b → b.full_name_ta = none →
      display_name banks Lang.Tamil h = b.full_name_en.getD "")
    ∧ (∀ b, dictGet BankEntry.isin banks h.isin = some b → b.full_name_ta = some "" →
      display_name banks Lang.Tamil h = "") := by
  refine ⟨?_, ?_, ?_⟩
  · intro hn
    unfold display_name
    rw [hn]
  · intro b hb hta
    have hdb : display_name banks Lang.Tamil h =
        b.full_name_ta.getD (b.full_name_en.getD "") := by
      unfold display_name
      rw [hb]
    rw [hdb, hta]
    simp
  · intro b hb hta
    have hdb : display_name banks Lang.Tamil h =
        b.full_name_ta.getD (b.full_name_en.getD "") := by
      unfold display_name
      rw [hb]
    rw [hdb, hta]
    simp

/-- C5 witness: with the Tamil key absent, the Tamil display name is the
issuer's English full name. -/
theorem C5_witness :
    dictGet BankEntry.isin [c5bank2] c5h2.isin = some c5bank2
    ∧ c5bank2.full_name_ta = none
    ∧ display_name [c5bank2] Lang.Tamil c5h2 = "Beta Bank" := by
  refine ⟨rfl, rfl, ?_⟩
  exact (C5_display_name_fallbacks [c5bank2] Lang.Tamil c5h2).2.1 c5bank2 rfl rfl
